import Mathlib

/-!
Shallow embedding of the incident grouping-and-summarization core of the
smart-logistics post-mortem repository (`postmortem-engine/engine.py`,
`postmortem-engine/analyze_logs.py`, `postmortem-engine/repo_sql.py`).

Timestamps are modelled as rational numbers (seconds); machine floats of the
source appear as exact rationals.  Python `None` values are modelled with
`Option`.  The regular-expression searches of the source
(`ORD-(?:PROC-)?\d+` and `detail=(.*)`) are implemented as executable
leftmost-match scanners over `List Char` and proved equivalent to their
declarative descriptions.
-/

/-- Removes the literal `pat` from the front of `l`; `some` of the rest when
`pat` is a prefix of `l`, else `none`. -/
def dropLit : List Char → List Char → Option (List Char)
  | [], l => some l
  | _ :: _, [] => none
  | p :: ps, c :: cs => if c = p then dropLit ps cs else none

/-- Leftmost occurrence search for the literal `pat`: returns the suffix of
`l` that follows the first occurrence of `pat`, scanning left to right. -/
def findSub (pat : List Char) : List Char → Option (List Char)
  | [] => none
  | c :: cs =>
    match dropLit pat (c :: cs) with
    | some r => some r
    | none => findSub pat cs

/-- The attempt of the regex `ORD-(?:PROC-)?\d+` to match at the head of `l`
(with the optional group tried first and one-or-more digits taken greedily,
as a backtracking engine does); returns the matched characters. -/
def matchAt (l : List Char) : Option (List Char) :=
  match dropLit "ORD-".toList l with
  | none => none
  | some r1 =>
    match dropLit "PROC-".toList r1 with
    | some r2 =>
      if r2.takeWhile Char.isDigit = [] then
        (if r1.takeWhile Char.isDigit = [] then none
         else some ("ORD-".toList ++ r1.takeWhile Char.isDigit))
      else some ("ORD-PROC-".toList ++ r2.takeWhile Char.isDigit)
    | none =>
      if r1.takeWhile Char.isDigit = [] then none
      else some ("ORD-".toList ++ r1.takeWhile Char.isDigit)

/-- `re.search` for `ORD-(?:PROC-)?\d+`: the match at the leftmost position
where one exists. -/
def searchOrd : List Char → Option (List Char)
  | [] => none
  | c :: cs =>
    match matchAt (c :: cs) with
    | some m => some m
    | none => searchOrd cs

/-- `extract_order_id` of `engine.py` / `analyze_logs.py`: first substring of
the message matching `ORD-(?:PROC-)?\d+`, if any. -/
def extract_order_id (message : String) : Option String :=
  (searchOrd message.toList).map List.asString

/-- Declarative shape of an order-id token: `ORD-`, optionally `PROC-`, then
one or more digits. -/
def OrdToken (t : List Char) : Prop :=
  ∃ ds : List Char, ds ≠ [] ∧ (∀ c ∈ ds, c.isDigit = true) ∧
    (t = "ORD-".toList ++ ds ∨ t = "ORD-PROC-".toList ++ ds)

/-- One normalized log record (a row of the prepared `DataFrame`). -/
structure LogRecord where
  timestamp : ℚ
  message : String
  severityLevel : Int
  order_id : Option String
deriving DecidableEq

/-- One raw input row, before normalization: the message cell may be null and
the severity cell may be null. -/
structure RawRow where
  timestamp : ℚ
  message : Option String
  severityLevel : Option Int
deriving DecidableEq

/-- The message cell after `astype(str)`: the frame comes from `read_csv`,
which holds a missing/null message field as the float NaN, and pandas
renders that NaN as the literal text `"nan"`. -/
def strOfCell : Option String → String
  | some s => s
  | none => "nan"

/-- Normalization of one raw row (the column preparation of `load_logs`):
message coerced to text, null severity treated as `0`, order id extracted
from the coerced message. -/
def normalizeRow (row : RawRow) : LogRecord :=
  { timestamp := row.timestamp
    message := strOfCell row.message
    severityLevel := row.severityLevel.getD 0
    order_id := extract_order_id (strOfCell row.message) }

/-- Ordering of records by timestamp (the sort key of `sort_values`). -/
def tsle (a b : LogRecord) : Prop := a.timestamp ≤ b.timestamp

instance : DecidableRel tsle := fun a b => inferInstanceAs (Decidable (a.timestamp ≤ b.timestamp))

instance : IsTotal LogRecord tsle := ⟨fun a b => le_total a.timestamp b.timestamp⟩

instance : IsTrans LogRecord tsle := ⟨fun _ _ _ h h' => le_trans h h'⟩

/-- The `sort_values("timestamp")` step, modelled as a sort by timestamp. -/
def sortByTs (l : List LogRecord) : List LogRecord := List.insertionSort tsle l

/-- `load_logs`: normalize every row, then sort the batch by timestamp. -/
def load_logs (rows : List RawRow) : List LogRecord :=
  sortByTs (rows.map normalizeRow)

/-- One incident summary, as assembled by `build_incidents`. -/
structure Incident where
  order_id : String
  status : String
  start_time : ℚ
  end_time : ℚ
  duration_seconds : ℚ
  event_count : Nat
  failure_detail : Option String
  messages : List String
deriving DecidableEq

/-- `group["timestamp"].min()` over a nonempty group. -/
def tsMin : List LogRecord → ℚ
  | [] => 0
  | r :: rs => rs.foldl (fun a x => min a x.timestamp) r.timestamp

/-- `group["timestamp"].max()` over a nonempty group. -/
def tsMax : List LogRecord → ℚ
  | [] => 0
  | r :: rs => rs.foldl (fun a x => max a x.timestamp) r.timestamp

/-- `(group["severityLevel"] >= 3).any()`. -/
def hasError (g : List LogRecord) : Bool :=
  g.any (fun r => decide (3 ≤ r.severityLevel))

/-- `group[group["severityLevel"] >= 3]`. -/
def errorRows (g : List LogRecord) : List LogRecord :=
  g.filter (fun r => decide (3 ≤ r.severityLevel))

/-- Python `str.strip` on the relevant alphabet: leading and trailing
whitespace removed. -/
def pyStrip (s : String) : String :=
  List.asString (((s.toList.dropWhile Char.isWhitespace).reverse.dropWhile Char.isWhitespace).reverse)

/-- `re.search(r"detail=(.*)", msg)`: group 1 of the leftmost match, i.e. the
characters after the first `detail=` up to the end of that line (`.` does not
cross a newline). -/
def searchDetail (msg : String) : Option String :=
  (findSub "detail=".toList msg.toList).map
    (fun r => List.asString (r.takeWhile (fun c => c != '\n')))

/-- The failure-detail derivation of `build_incidents`: the last row of the
error rows supplies the message; the text after `detail=` (stripped) when the
pattern matches, else the whole message. -/
def failureDetailOf (g : List LogRecord) : Option String :=
  match (errorRows g).getLast? with
  | none => none
  | some lastErr =>
    match searchDetail lastErr.message with
    | some rest => some (pyStrip rest)
    | none => some lastErr.message

/-- The incident assembled for one `order_id` group by `build_incidents`. -/
def buildIncident (oid : String) (g0 : List LogRecord) : Incident :=
  let g := sortByTs g0
  { order_id := oid
    status := if hasError g then "FAILED" else "SUCCESS"
    start_time := tsMin g
    end_time := tsMax g
    duration_seconds := tsMax g - tsMin g
    event_count := g.length
    failure_detail := failureDetailOf g
    messages := g.map (fun r => r.message) }

/-- The rows of the frame carrying a given order id (`groupby` group,
in frame order). -/
def groupFor (rows : List LogRecord) (k : String) : List LogRecord :=
  rows.filter (fun r => r.order_id == some k)

/-- The group keys of `df.groupby("order_id")`: the distinct non-null order
ids, iterated in ascending order (pandas sorts group keys). -/
def orderKeys (rows : List LogRecord) : List String :=
  List.insertionSort (· ≤ ·) (rows.filterMap (fun r => r.order_id)).dedup

/-- `build_incidents`: one incident per order-id group, in group-key order. -/
def build_incidents (rows : List LogRecord) : List Incident :=
  (orderKeys rows).map (fun k => buildIncident k (groupFor rows k))

/-- Python substring membership `pat in s`, via the leftmost-occurrence
scanner. -/
def containsStr (pat s : String) : Bool :=
  (findSub pat.toList s.toList).isSome

/-- Python `str.lower()` on the relevant (ASCII) alphabet. -/
def lowerStr (s : String) : String :=
  List.asString (s.toList.map Char.toLower)

/-- `classify_root_cause` of `analyze_logs.py`.  Note Python's
`if not failure_detail` is a truthiness test: it sends the empty string, not
only `None`, to the unknown-cause category. -/
def classify_root_cause (failure_detail : Option String) : String :=
  match failure_detail with
  | none => "Unknown cause"
  | some s =>
    if s = "" then "Unknown cause"
    else
      let text := lowerStr s
      if containsStr "inventory service unavailable" text then
        "Inventory service outage (dependency failure)"
      else if containsStr "insufficient stock" text then
        "Inventory capacity / stock issue"
      else if containsStr "courier service timeout" text || containsStr "courier api timeout" text then
        "Courier API latency / timeout (third-party degradation)"
      else "Unknown / unclassified failure"

/-- Case-insensitive substring containment written independently of the
scanner: some position of the text starts with the pattern. -/
def specContains (pat s : String) : Bool :=
  (List.range (s.toList.length + 1)).any
    (fun i => pat.toList.isPrefixOf (s.toList.drop i))

/-- Modelled from the spec: root-cause classification exactly as the claim
words it — phrases matched by case-insensitive substring containment, any
OTHER NON-NULL TEXT (including the empty string) unclassified, only a
null/absent detail unknown-cause. -/
def classify_root_cause_spec (failure_detail : Option String) : String :=
  match failure_detail with
  | none => "Unknown cause"
  | some s =>
    let text := lowerStr s
    if specContains "inventory service unavailable" text then
      "Inventory service outage (dependency failure)"
    else if specContains "insufficient stock" text then
      "Inventory capacity / stock issue"
    else if specContains "courier service timeout" text || specContains "courier api timeout" text then
      "Courier API latency / timeout (third-party degradation)"
    else "Unknown / unclassified failure"

/-- The claim amended: a null/absent OR EMPTY detail is unknown-cause; any
other non-null text goes through the case-insensitive phrase containment. -/
def classify_root_cause_amended (failure_detail : Option String) : String :=
  match failure_detail with
  | none => "Unknown cause"
  | some s =>
    if s = "" then "Unknown cause"
    else
      let text := lowerStr s
      if specContains "inventory service unavailable" text then
        "Inventory service outage (dependency failure)"
      else if specContains "insufficient stock" text then
        "Inventory capacity / stock issue"
      else if specContains "courier service timeout" text || specContains "courier api timeout" text then
        "Courier API latency / timeout (third-party degradation)"
      else "Unknown / unclassified failure"

/-- Modelled from the spec's words for the failure-detail rule: the
whitespace-trimmed remainder of the WHOLE message after the first `detail=`
(no truncation at a newline), absent when the pattern does not occur. -/
def failureDetailSpecOfMsg (msg : String) : Option String :=
  (findSub "detail=".toList msg.toList).map (fun r => pyStrip (List.asString r))

/-- One persisted incident row, as queried by `kpis` (`repo_sql.py`): only
the columns the KPI query reads. -/
structure IncidentRow where
  status : String
  failure_detail : Option String
deriving DecidableEq

/-- The aggregate KPI record returned by `kpis`. -/
structure KPIs where
  total_incidents : Nat
  failed_incidents : Nat
  failure_rate : ℚ
  top_failure_detail : Option String
deriving DecidableEq

/-- Occurrence count of one `failure_detail` value among the persisted rows
(the grouped `count` of the top-failure query). -/
def countDetail (tbl : List IncidentRow) (v : String) : Nat :=
  (tbl.filter (fun r => r.failure_detail == some v)).length

/-- The top-failure query of `kpis`: the non-null `failure_detail` value with
the highest occurrence count (first one reached on ties), absent when every
row's detail is null. -/
def topFailureDetail (tbl : List IncidentRow) : Option String :=
  match (tbl.filterMap (fun r => r.failure_detail)).dedup with
  | [] => none
  | v :: vs =>
    some (vs.foldl (fun best w => if countDetail tbl best < countDetail tbl w then w else best) v)

/-- `kpis` of `repo_sql.py`: totals, failure rate (`failed / total` guarded
by Python truthiness of `total`), and the top failure detail. -/
def kpis (tbl : List IncidentRow) : KPIs :=
  let total := tbl.length
  let failed := (tbl.filter (fun r => r.status == "FAILED")).length
  { total_incidents := total
    failed_incidents := failed
    failure_rate := if total = 0 then 0 else (failed : ℚ) / (total : ℚ)
    top_failure_detail := topFailureDetail tbl }

/-- A concrete informational record for order `ORD-1` (severity 1). -/
def w1ok : LogRecord :=
  { timestamp := 10, message := "order ORD-1 created", severityLevel := 1,
    order_id := extract_order_id "order ORD-1 created" }

/-- A concrete error record for order `ORD-1` (severity 4), ten seconds
later, with a `detail=` clause. -/
def w1err : LogRecord :=
  { timestamp := 20, message := "failed ORD-1 detail=Insufficient stock", severityLevel := 4,
    order_id := extract_order_id "failed ORD-1 detail=Insufficient stock" }

/-- A concrete two-record batch for one order (severities 1 and 4, ten
seconds apart), used to instantiate the incident-level theorems. -/
def w1rows : List LogRecord := [w1ok, w1err]

/-- A message whose text after `detail=` spans two lines. -/
def c2msg : String := "ORD-7 detail=A\nB"

/-- A one-record batch whose only message is `c2msg`, at severity 3. -/
def c2rows : List LogRecord :=
  [{ timestamp := 0, message := c2msg, severityLevel := 3,
     order_id := extract_order_id c2msg }]

/-- A concrete persisted-incidents table: two failed rows sharing one detail,
one successful row with no detail. -/
def w9tbl : List IncidentRow :=
  [{ status := "FAILED", failure_detail := some "Insufficient stock" },
   { status := "FAILED", failure_detail := some "Insufficient stock" },
   { status := "SUCCESS", failure_detail := none }]

/-! ### Lemmas about the literal scanners -/

theorem dropLit_eq_some {pat l r : List Char} : dropLit pat l = some r ↔ l = pat ++ r := by
  induction pat generalizing l with
  | nil => simp [dropLit]
  | cons p ps ih =>
    cases l with
    | nil => simp [dropLit]
    | cons c cs =>
      by_cases h : c = p
      · subst h
        simp [dropLit, ih]
      · simp [dropLit, h, Ne.symm h]

theorem findSub_some {pat l r : List Char} (h : findSub pat l = some r) :
    ∃ a, l = a ++ pat ++ r ∧ ∀ a' r', l = a' ++ pat ++ r' → a.length ≤ a'.length := by
  induction l with
  | nil => simp [findSub] at h
  | cons c cs ih =>
    rw [findSub] at h
    cases hd : dropLit pat (c :: cs) with
    | some r0 =>
      rw [hd] at h
      obtain rfl : r0 = r := by simpa using h
      refine ⟨[], by simpa using dropLit_eq_some.mp hd, fun a' r' _ => Nat.zero_le _⟩
    | none =>
      rw [hd] at h
      obtain ⟨a, ha, hmin⟩ := ih h
      refine ⟨c :: a, by simpa using ha, ?_⟩
      intro a' r' he
      cases a' with
      | nil =>
        exfalso
        have : dropLit pat (c :: cs) = some r' := dropLit_eq_some.mpr (by simpa using he)
        simp [this] at hd
      | cons c' a'' =>
        have h2 : cs = a'' ++ pat ++ r' := by
          have := congrArg List.tail he
          simpa using this
        simpa using Nat.succ_le_succ (hmin a'' r' h2)

theorem findSub_none {pat l : List Char} (hpat : pat ≠ []) (h : findSub pat l = none) :
    ∀ a r, l ≠ a ++ pat ++ r := by
  induction l with
  | nil =>
    intro a r he
    exact hpat (List.append_eq_nil.mp (List.append_eq_nil.mp he.symm).1).2
  | cons c cs ih =>
    rw [findSub] at h
    cases hd : dropLit pat (c :: cs) with
    | some r0 => rw [hd] at h; exact absurd h (by simp)
    | none =>
      rw [hd] at h
      intro a r he
      cases a with
      | nil =>
        have : dropLit pat (c :: cs) = some r := dropLit_eq_some.mpr (by simpa using he)
        simp [this] at hd
      | cons c' a' =>
        have h2 : cs = a' ++ pat ++ r := by
          have := congrArg List.tail he
          simpa using this
        exact ih h a' r h2

theorem takeWhile_procHead (r2 : List Char) :
    ("PROC-".toList ++ r2).takeWhile Char.isDigit = [] := by
  have h : "PROC-".toList ++ r2 = 'P' :: ("ROC-".toList ++ r2) := rfl
  rw [h, List.takeWhile_cons]
  simp


theorem matchAt_some {l m : List Char} (h : matchAt l = some m) :
    OrdToken m ∧ ∃ b, l = m ++ b ∧ ∀ c, b.head? = some c → c.isDigit = false := by
  cases h1 : dropLit "ORD-".toList l with
  | none => simp only [matchAt, h1] at h; exact absurd h (by simp)
  | some r1 =>
    have hl1 : l = "ORD-".toList ++ r1 := dropLit_eq_some.mp h1
    cases h2 : dropLit "PROC-".toList r1 with
    | some r2 =>
      have hr1 : r1 = "PROC-".toList ++ r2 := dropLit_eq_some.mp h2
      by_cases htw : r2.takeWhile Char.isDigit = []
      · have hr1tw : r1.takeWhile Char.isDigit = [] := by
          rw [hr1]; exact takeWhile_procHead r2
        simp only [matchAt, h1, h2, htw, hr1tw, if_pos, if_true] at h
        exact absurd h (by simp)
      · simp only [matchAt, h1, h2, htw, if_neg, ite_false] at h
        obtain rfl : m = "ORD-PROC-".toList ++ r2.takeWhile Char.isDigit := by
          simpa using h.symm
        refine ⟨⟨r2.takeWhile Char.isDigit, htw, fun c hc => List.mem_takeWhile_imp hc,
          Or.inr rfl⟩, r2.dropWhile Char.isDigit, ?_, ?_⟩
        · rw [hl1, hr1]
          have hsplit : ("ORD-PROC-".toList : List Char) = "ORD-".toList ++ "PROC-".toList := rfl
          rw [hsplit]
          simp [List.append_assoc, List.takeWhile_append_dropWhile]
        · intro c hc
          have hw := List.head?_dropWhile_not Char.isDigit r2
          rw [hc] at hw
          exact hw
    | none =>
      by_cases htw : r1.takeWhile Char.isDigit = []
      · simp only [matchAt, h1, h2, htw, if_pos, if_true] at h
        exact absurd h (by simp)
      · simp only [matchAt, h1, h2, htw, if_neg, ite_false] at h
        obtain rfl : m = "ORD-".toList ++ r1.takeWhile Char.isDigit := by
          simpa using h.symm
        refine ⟨⟨r1.takeWhile Char.isDigit, htw, fun c hc => List.mem_takeWhile_imp hc,
          Or.inl rfl⟩, r1.dropWhile Char.isDigit, ?_, ?_⟩
        · rw [hl1]
          simp [List.append_assoc, List.takeWhile_append_dropWhile]
        · intro c hc
          have hw := List.head?_dropWhile_not Char.isDigit r1
          rw [hc] at hw
          exact hw

theorem matchAt_of_token {t b : List Char} (ht : OrdToken t) :
    ∃ m, matchAt (t ++ b) = some m := by
  obtain ⟨ds, hne, hdig, hshape⟩ := ht
  obtain ⟨d, ds', rfl⟩ : ∃ d ds', ds = d :: ds' := by
    cases ds with
    | nil => exact absurd rfl hne
    | cons d ds' => exact ⟨d, ds', rfl⟩
  have hd : d.isDigit = true := hdig d (List.Mem.head _)
  cases hshape with
  | inl hsh =>
    subst hsh
    have h1 : dropLit "ORD-".toList (("ORD-".toList ++ (d :: ds')) ++ b)
        = some ((d :: ds') ++ b) := dropLit_eq_some.mpr (by simp [List.append_assoc])
    cases h2 : dropLit "PROC-".toList ((d :: ds') ++ b) with
    | some r2 =>
      exfalso
      have he := dropLit_eq_some.mp h2
      have hdP : d = 'P' := by
        have := congrArg List.head? he
        simpa using this
      rw [hdP] at hd
      exact absurd hd (by decide)
    | none =>
      have hx : ((d :: ds') ++ b).takeWhile Char.isDigit
          = d :: (ds' ++ b).takeWhile Char.isDigit := by
        rw [List.cons_append, List.takeWhile_cons, if_pos hd]
      refine ⟨"ORD-".toList ++ ((d :: ds') ++ b).takeWhile Char.isDigit, ?_⟩
      simp only [matchAt, h1, h2, hx]
      simp
  | inr hsh =>
    subst hsh
    have h1 : dropLit "ORD-".toList (("ORD-PROC-".toList ++ (d :: ds')) ++ b)
        = some ("PROC-".toList ++ ((d :: ds') ++ b)) := by
      apply dropLit_eq_some.mpr
      have hsplit : ("ORD-PROC-".toList : List Char) = "ORD-".toList ++ "PROC-".toList := rfl
      rw [hsplit]
      simp [List.append_assoc]
    have h2 : dropLit "PROC-".toList ("PROC-".toList ++ ((d :: ds') ++ b))
        = some ((d :: ds') ++ b) := dropLit_eq_some.mpr rfl
    have hx : ((d :: ds') ++ b).takeWhile Char.isDigit
        = d :: (ds' ++ b).takeWhile Char.isDigit := by
      rw [List.cons_append, List.takeWhile_cons, if_pos hd]
    refine ⟨"ORD-PROC-".toList ++ ((d :: ds') ++ b).takeWhile Char.isDigit, ?_⟩
    simp only [matchAt, h1, h2, hx]
    simp

theorem ordToken_ne_nil {t : List Char} (ht : OrdToken t) : t ≠ [] := by
  obtain ⟨ds, _, _, hsh⟩ := ht
  cases hsh with
  | inl h => subst h; simp
  | inr h => subst h; simp

theorem searchOrd_some {l m : List Char} (h : searchOrd l = some m) :
    OrdToken m ∧ ∃ a b, l = a ++ m ++ b ∧ (∀ c, b.head? = some c → c.isDigit = false) ∧
      ∀ a' t b', l = a' ++ t ++ b' → OrdToken t → a.length ≤ a'.length := by
  induction l with
  | nil => simp [searchOrd] at h
  | cons c cs ih =>
    rw [searchOrd] at h
    cases hm : matchAt (c :: cs) with
    | some m0 =>
      rw [hm] at h
      obtain rfl : m0 = m := by simpa using h
      obtain ⟨htok, b, hb, hnd⟩ := matchAt_some hm
      exact ⟨htok, [], b, by simpa using hb, hnd, fun a' t b' _ _ => Nat.zero_le _⟩
    | none =>
      rw [hm] at h
      obtain ⟨htok, a, b, hab, hnd, hmin⟩ := ih h
      refine ⟨htok, c :: a, b, by simp [hab], hnd, ?_⟩
      intro a' t b' he htok'
      cases a' with
      | nil =>
        exfalso
        obtain ⟨m', hm'⟩ := matchAt_of_token (b := b') htok'
        rw [show (c :: cs) = t ++ b' by simpa using he] at hm
        simp [hm'] at hm
      | cons c' a'' =>
        have h2 : cs = a'' ++ t ++ b' := by
          have := congrArg List.tail he
          simpa using this
        simpa using Nat.succ_le_succ (hmin a'' t b' h2 htok')

theorem searchOrd_none {l : List Char} (h : searchOrd l = none) :
    ∀ a t b, l = a ++ t ++ b → ¬ OrdToken t := by
  induction l with
  | nil =>
    intro a t b he htok
    have : t = [] := (List.append_eq_nil.mp (List.append_eq_nil.mp he.symm).1).2
    exact ordToken_ne_nil htok this
  | cons c cs ih =>
    rw [searchOrd] at h
    cases hm : matchAt (c :: cs) with
    | some m0 => rw [hm] at h; exact absurd h (by simp)
    | none =>
      rw [hm] at h
      intro a t b he htok
      cases a with
      | nil =>
        obtain ⟨m', hm'⟩ := matchAt_of_token (b := b) htok
        rw [show (c :: cs) = t ++ b by simpa using he] at hm
        simp [hm'] at hm
      | cons c' a' =>
        have h2 : cs = a' ++ t ++ b := by
          have := congrArg List.tail he
          simpa using this
        exact ih h a' t b h2 htok

/-! ### Claim C4: order-id extraction -/

/-- Claim C4: for every message string, order-id extraction returns the first
(leftmost, digit-greedy) substring matching `ORD-` optionally followed by
`PROC-` and then one or more digits, and returns no order id when no such
substring exists; the two example messages of the spec extract their embedded
ids. -/
theorem extract_order_id_first_match :
    (∀ msg : String,
      (extract_order_id msg = none ↔
        ∀ a t b, msg.toList = a ++ t ++ b → ¬ OrdToken t) ∧
      (∀ s, extract_order_id msg = some s →
        OrdToken s.toList ∧
        ∃ a b, msg.toList = a ++ s.toList ++ b ∧
          (∀ c, b.head? = some c → c.isDigit = false) ∧
          ∀ a' t b', msg.toList = a' ++ t ++ b' → OrdToken t → a.length ≤ a'.length)) ∧
    extract_order_id "order ORD-20251218150457 created" = some "ORD-20251218150457" ∧
    extract_order_id "failed ORD-PROC-20251218150606 detail=Insufficient stock"
      = some "ORD-PROC-20251218150606" := by
  refine ⟨fun msg => ⟨⟨?_, ?_⟩, ?_⟩, by decide, by decide⟩
  · intro h a t b he htok
    exact searchOrd_none (Option.map_eq_none'.mp h) a t b he htok
  · intro h
    cases hs : searchOrd msg.toList with
    | none => exact Option.map_eq_none'.mpr hs
    | some m =>
      exfalso
      obtain ⟨htok, a, b, hab, _, _⟩ := searchOrd_some hs
      exact h a m b hab htok
  · intro s hs
    obtain ⟨m, hso, hsm⟩ := Option.map_eq_some'.mp hs
    have hst : s.toList = m := by rw [← hsm]; exact rfl
    obtain ⟨htok, a, b, hab, hnd, hmin⟩ := searchOrd_some hso
    rw [hst]
    exact ⟨htok, a, b, hab, hnd, hmin⟩

/-- Witness for C4: the leftmost-match characterization instantiated on the
spec's first example message. -/
theorem extract_order_id_first_match_witness :
    OrdToken ("ORD-20251218150457" : String).toList ∧
    ∃ a b, ("order ORD-20251218150457 created" : String).toList
        = a ++ ("ORD-20251218150457" : String).toList ++ b ∧
      (∀ c, b.head? = some c → c.isDigit = false) ∧
      ∀ a' t b', ("order ORD-20251218150457 created" : String).toList = a' ++ t ++ b' →
        OrdToken t → a.length ≤ a'.length :=
  (extract_order_id_first_match.1 "order ORD-20251218150457 created").2
    "ORD-20251218150457" (by decide)

/-! ### Claim C5: null message coercion -/

/-- Counterexample to claim C5 as stated: a raw row whose message cell is
null normalizes with message text `"nan"` (pandas `astype(str)` over the NaN
that `read_csv` stores for a missing field), not the claimed literal
`"None"`. -/
theorem normalize_none_literal_counterexample :
    (normalizeRow { timestamp := 0, message := none, severityLevel := none }).message = "nan" ∧
    ("nan" : String) ≠ "None" :=
  ⟨rfl, by decide⟩

/-- Claim C5 (amended): a raw row whose message cell is null is normalized
(not rejected) with the literal text `"nan"` as its message, and order-id
extraction over that substituted literal yields no order id. -/
theorem normalize_null_message (ts : ℚ) (sev : Option Int) :
    (normalizeRow { timestamp := ts, message := none, severityLevel := sev }).message = "nan" ∧
    (normalizeRow { timestamp := ts, message := none, severityLevel := sev }).order_id = none ∧
    extract_order_id "nan" = none :=
  ⟨rfl, rfl, by decide⟩

/-! ### Incident-level facts -/

theorem sortByTs_perm (l : List LogRecord) : (sortByTs l).Perm l :=
  List.perm_insertionSort tsle l

theorem mem_sortByTs {r : LogRecord} {l : List LogRecord} : r ∈ sortByTs l ↔ r ∈ l :=
  (sortByTs_perm l).mem_iff

theorem hasError_iff {g : List LogRecord} :
    hasError g = true ↔ ∃ r ∈ g, 3 ≤ r.severityLevel := by
  simp [hasError, List.any_eq_true]

theorem hasError_sortByTs {g : List LogRecord} :
    hasError (sortByTs g) = hasError g := by
  cases h : hasError g
  · rw [Bool.eq_false_iff]
    intro hc
    obtain ⟨r, hr, hs⟩ := hasError_iff.mp hc
    have : hasError g = true := hasError_iff.mpr ⟨r, mem_sortByTs.mp hr, hs⟩
    rw [h] at this
    cases this
  · obtain ⟨r, hr, hs⟩ := hasError_iff.mp h
    exact hasError_iff.mpr ⟨r, mem_sortByTs.mpr hr, hs⟩

theorem mem_build_incidents {rows : List LogRecord} {inc : Incident}
    (h : inc ∈ build_incidents rows) :
    ∃ k ∈ orderKeys rows, inc = buildIncident k (groupFor rows k) := by
  obtain ⟨k, hk, he⟩ := List.mem_map.mp h
  exact ⟨k, hk, he.symm⟩

theorem buildIncident_order_id (oid : String) (g0 : List LogRecord) :
    (buildIncident oid g0).order_id = oid := rfl

theorem buildIncident_status (oid : String) (g0 : List LogRecord) :
    (buildIncident oid g0).status
      = (if hasError (sortByTs g0) then "FAILED" else "SUCCESS") := rfl

/-- Claim C1: an incident's status is `FAILED` exactly when some member of
its order-id group has severity at least 3, and `SUCCESS` otherwise. -/
theorem incident_status_failed_iff (rows : List LogRecord) (inc : Incident)
    (h : inc ∈ build_incidents rows) :
    (inc.status = "FAILED" ↔ ∃ r ∈ groupFor rows inc.order_id, 3 ≤ r.severityLevel) ∧
    (inc.status ≠ "FAILED" → inc.status = "SUCCESS") := by
  obtain ⟨k, hk, rfl⟩ := mem_build_incidents h
  rw [buildIncident_order_id, buildIncident_status]
  cases he : hasError (sortByTs (groupFor rows k)) with
  | true =>
    rw [if_pos rfl]
    have hex : ∃ r ∈ groupFor rows k, 3 ≤ r.severityLevel :=
      hasError_iff.mp (hasError_sortByTs (g := groupFor rows k) ▸ he)
    exact ⟨⟨fun _ => hex, fun _ => rfl⟩, fun hc => absurd rfl hc⟩
  | false =>
    rw [if_neg (by simp)]
    refine ⟨⟨fun hc => absurd hc (by decide), fun hex => ?_⟩, fun _ => rfl⟩
    have : hasError (sortByTs (groupFor rows k)) = true := by
      rw [hasError_sortByTs]
      exact hasError_iff.mpr hex
    rw [he] at this
    cases this

/-- Witness for C1: the two-record batch `w1rows` (severities 1 and 4)
produces a `FAILED` incident for `ORD-1`. -/
theorem incident_status_failed_iff_witness :
    ((buildIncident "ORD-1" (groupFor w1rows "ORD-1")).status = "FAILED" ↔
      ∃ r ∈ groupFor w1rows "ORD-1", 3 ≤ r.severityLevel) ∧
    ((buildIncident "ORD-1" (groupFor w1rows "ORD-1")).status ≠ "FAILED" →
      (buildIncident "ORD-1" (groupFor w1rows "ORD-1")).status = "SUCCESS") :=
  incident_status_failed_iff w1rows _ (List.mem_map.mpr ⟨"ORD-1", by decide, rfl⟩)

theorem mem_errorRows {r : LogRecord} {g : List LogRecord} :
    r ∈ errorRows g ↔ r ∈ g ∧ 3 ≤ r.severityLevel := by
  simp [errorRows, List.mem_filter]

theorem failureDetailOf_isSome {g : List LogRecord} :
    (failureDetailOf g).isSome = true ↔ hasError g = true := by
  constructor
  · intro h
    cases hgl : (errorRows g).getLast? with
    | none =>
      unfold failureDetailOf at h
      rw [hgl] at h
      simp at h
    | some r =>
      have hr : r ∈ errorRows g := by
        obtain ⟨ys, hys⟩ := List.getLast?_eq_some_iff.mp hgl
        rw [hys]
        simp
      obtain ⟨hrg, hrs⟩ := mem_errorRows.mp hr
      exact hasError_iff.mpr ⟨r, hrg, hrs⟩
  · intro h
    obtain ⟨r, hrg, hrs⟩ := hasError_iff.mp h
    have hne : errorRows g ≠ [] := List.ne_nil_of_mem (mem_errorRows.mpr ⟨hrg, hrs⟩)
    cases hgl : (errorRows g).getLast? with
    | none => exact absurd (List.getLast?_eq_none_iff.mp hgl) hne
    | some r0 =>
      unfold failureDetailOf
      rw [hgl]
      cases hsd : searchDetail r0.message <;> simp [hsd]

/-- Claim C3: an incident carries a failure detail exactly when its status is
`FAILED`; a `SUCCESS` incident has no failure detail. -/
theorem incident_failure_detail_iff_failed (rows : List LogRecord) (inc : Incident)
    (h : inc ∈ build_incidents rows) :
    inc.failure_detail.isSome = true ↔ inc.status = "FAILED" := by
  obtain ⟨k, hk, rfl⟩ := mem_build_incidents h
  rw [buildIncident_status]
  have hfd : (buildIncident k (groupFor rows k)).failure_detail
      = failureDetailOf (sortByTs (groupFor rows k)) := rfl
  rw [hfd, failureDetailOf_isSome]
  cases he : hasError (sortByTs (groupFor rows k)) with
  | false =>
    rw [if_neg (by simp)]
    constructor
    · intro hc
      cases hc
    · intro hc
      exact absurd hc (by decide)
  | true =>
    rw [if_pos rfl]
    simp

/-- Witness for C3: the `FAILED` incident of the batch `w1rows` carries a
failure detail. -/
theorem incident_failure_detail_iff_failed_witness :
    (buildIncident "ORD-1" (groupFor w1rows "ORD-1")).failure_detail.isSome = true ↔
      (buildIncident "ORD-1" (groupFor w1rows "ORD-1")).status = "FAILED" :=
  incident_failure_detail_iff_failed w1rows _ (List.mem_map.mpr ⟨"ORD-1", by decide, rfl⟩)

theorem foldl_min_le_foldl_max (rs : List LogRecord) :
    ∀ a b : ℚ, a ≤ b →
      rs.foldl (fun x r => min x r.timestamp) a ≤ rs.foldl (fun x r => max x r.timestamp) b := by
  induction rs with
  | nil => intro a b h; exact h
  | cons r rs ih =>
    intro a b h
    exact ih _ _ (le_trans (min_le_left a r.timestamp)
      (le_trans h (le_max_left b r.timestamp)))

theorem tsMin_le_tsMax {g : List LogRecord} (h : g ≠ []) : tsMin g ≤ tsMax g := by
  cases g with
  | nil => exact absurd rfl h
  | cons r rs => exact foldl_min_le_foldl_max rs _ _ le_rfl

theorem groupFor_ne_nil {rows : List LogRecord} {k : String} (hk : k ∈ orderKeys rows) :
    groupFor rows k ≠ [] := by
  have h1 : k ∈ (rows.filterMap (fun r => r.order_id)).dedup :=
    (List.perm_insertionSort (· ≤ ·) _).mem_iff.mp hk
  obtain ⟨r, hr, hid⟩ := List.mem_filterMap.mp (List.mem_dedup.mp h1)
  refine List.ne_nil_of_mem (l := groupFor rows k) (a := r) ?_
  rw [groupFor, List.mem_filter]
  exact ⟨hr, by rw [hid]; simp⟩

theorem sortByTs_ne_nil {g : List LogRecord} (h : g ≠ []) : sortByTs g ≠ [] := by
  obtain ⟨r, hr⟩ := List.exists_mem_of_ne_nil g h
  exact List.ne_nil_of_mem (mem_sortByTs.mpr hr)

/-- Claim C7: every incident has `start_time ≤ end_time` (the min and max of
member timestamps), `duration_seconds` equal to their exact difference,
hence nonnegative, and zero for a single-event group. -/
theorem incident_time_invariants (rows : List LogRecord) (inc : Incident)
    (h : inc ∈ build_incidents rows) :
    inc.start_time ≤ inc.end_time ∧
    inc.duration_seconds = inc.end_time - inc.start_time ∧
    0 ≤ inc.duration_seconds ∧
    (inc.event_count = 1 → inc.duration_seconds = 0) := by
  obtain ⟨k, hk, rfl⟩ := mem_build_incidents h
  have hne : sortByTs (groupFor rows k) ≠ [] := sortByTs_ne_nil (groupFor_ne_nil hk)
  have h1 : tsMin (sortByTs (groupFor rows k)) ≤ tsMax (sortByTs (groupFor rows k)) :=
    tsMin_le_tsMax hne
  refine ⟨h1, rfl, ?_, ?_⟩
  · exact sub_nonneg.mpr h1
  · intro hev
    have hlen : (sortByTs (groupFor rows k)).length = 1 := hev
    obtain ⟨a, ha⟩ := List.length_eq_one.mp hlen
    show tsMax (sortByTs (groupFor rows k)) - tsMin (sortByTs (groupFor rows k)) = 0
    rw [ha]
    show a.timestamp - a.timestamp = 0
    exact sub_self _

/-- Witness for C7: the time invariants instantiated on the `ORD-1` incident
of the batch `w1rows`. -/
theorem incident_time_invariants_witness :
    (buildIncident "ORD-1" (groupFor w1rows "ORD-1")).start_time ≤
      (buildIncident "ORD-1" (groupFor w1rows "ORD-1")).end_time ∧
    (buildIncident "ORD-1" (groupFor w1rows "ORD-1")).duration_seconds =
      (buildIncident "ORD-1" (groupFor w1rows "ORD-1")).end_time -
        (buildIncident "ORD-1" (groupFor w1rows "ORD-1")).start_time ∧
    0 ≤ (buildIncident "ORD-1" (groupFor w1rows "ORD-1")).duration_seconds ∧
    ((buildIncident "ORD-1" (groupFor w1rows "ORD-1")).event_count = 1 →
      (buildIncident "ORD-1" (groupFor w1rows "ORD-1")).duration_seconds = 0) :=
  incident_time_invariants w1rows _ (List.mem_map.mpr ⟨"ORD-1", by decide, rfl⟩)

/-- Claim C10: the incident list is strictly ascending in `order_id` — the
group keys are iterated in sorted order, so the plain listing order is
deterministic and totally ordered by group key. -/
theorem incidents_sorted_by_key (rows : List LogRecord) :
    List.Sorted (· < ·) ((build_incidents rows).map Incident.order_id) := by
  have h1 : (build_incidents rows).map Incident.order_id = orderKeys rows := by
    rw [build_incidents, List.map_map]
    show List.map (fun k => k) (orderKeys rows) = orderKeys rows
    simp
  rw [h1]
  have hs : List.Sorted (· ≤ ·) (orderKeys rows) :=
    List.sorted_insertionSort (· ≤ ·) _
  have hnd : (orderKeys rows).Nodup :=
    ((List.perm_insertionSort (· ≤ ·) _).symm).nodup
      (List.nodup_dedup (rows.filterMap (fun r => r.order_id)))
  exact hs.lt_of_le hnd

theorem errorRows_decomp {pre post : List LogRecord} {r : LogRecord} {S : List LogRecord}
    (hS : S = pre ++ r :: post) (hr : 3 ≤ r.severityLevel)
    (hpost : ∀ x ∈ post, x.severityLevel < 3) :
    (errorRows S).getLast? = some r := by
  subst hS
  rw [errorRows, List.filter_append, List.filter_cons, if_pos (by simpa using hr)]
  have hpost0 : List.filter (fun x => decide (3 ≤ x.severityLevel)) post = [] := by
    rw [List.filter_eq_nil_iff]
    intro x hx
    simpa using not_le.mpr (hpost x hx)
  rw [hpost0]
  exact List.getLast?_concat _

/-- Claim C2 (amended): for an incident whose group has an error member, let
`r` be the last member with severity ≥ 3 in the group's time order; if `r`'s
message contains `detail=`, the failure detail is the whitespace-trimmed text
after the first `detail=` UP TO THE END OF THAT LINE (the regex `.` does not
cross a newline); otherwise it is `r`'s full raw message. -/
theorem incident_failure_detail_last_error (rows : List LogRecord) (inc : Incident)
    (h : inc ∈ build_incidents rows) (pre post : List LogRecord) (r : LogRecord)
    (hdec : sortByTs (groupFor rows inc.order_id) = pre ++ r :: post)
    (hr : 3 ≤ r.severityLevel) (hpost : ∀ x ∈ post, x.severityLevel < 3) :
    ((∀ a b, r.message.toList ≠ a ++ "detail=".toList ++ b) →
      inc.failure_detail = some r.message) ∧
    (∀ a b, r.message.toList = a ++ "detail=".toList ++ b →
      (∀ a' b', r.message.toList = a' ++ "detail=".toList ++ b' → a.length ≤ a'.length) →
      inc.failure_detail = some (pyStrip (List.asString (b.takeWhile (fun c => c != '\n'))))) := by
  obtain ⟨k, hk, rfl⟩ := mem_build_incidents h
  rw [buildIncident_order_id] at hdec
  have hfd : (buildIncident k (groupFor rows k)).failure_detail
      = failureDetailOf (sortByTs (groupFor rows k)) := rfl
  have hlast : (errorRows (sortByTs (groupFor rows k))).getLast? = some r :=
    errorRows_decomp hdec hr hpost
  constructor
  · intro hno
    have hfs : findSub "detail=".toList r.message.toList = none := by
      cases hf : findSub "detail=".toList r.message.toList with
      | none => rfl
      | some r0 =>
        obtain ⟨a, ha, _⟩ := findSub_some hf
        exact absurd ha (hno a r0)
    have hsd : searchDetail r.message = none := by
      unfold searchDetail
      rw [hfs]
      rfl
    rw [hfd]
    simp only [failureDetailOf, hlast, hsd]
  · intro a b hab hmin
    have hfs : findSub "detail=".toList r.message.toList = some b := by
      cases hf : findSub "detail=".toList r.message.toList with
      | none => exact absurd hab (findSub_none (by decide) hf a b)
      | some r0 =>
        obtain ⟨a0, ha0, hmin0⟩ := findSub_some hf
        have hlen : a0.length = a.length :=
          le_antisymm (hmin0 a b hab) (hmin a0 r0 ha0)
        obtain ⟨_, hr0b⟩ := List.append_inj (ha0.symm.trans hab) (by simp [hlen])
        rw [hr0b]
    have hsd : searchDetail r.message
        = some (List.asString (b.takeWhile (fun c => c != '\n'))) := by
      unfold searchDetail
      rw [hfs]
      rfl
    rw [hfd]
    simp only [failureDetailOf, hlast, hsd]

/-- Counterexample to claim C2 as stated: for the one-record batch `c2rows`
whose error message is `c2msg` (text after `detail=` spanning two lines), the
code truncates the captured text at the newline and yields `"A"`, while the
claim's trimmed remainder of the whole message after the first `detail=`
is `"A\nB"`. -/
theorem failure_detail_newline_counterexample :
    buildIncident "ORD-7" (groupFor c2rows "ORD-7") ∈ build_incidents c2rows ∧
    (buildIncident "ORD-7" (groupFor c2rows "ORD-7")).failure_detail = some "A" ∧
    failureDetailSpecOfMsg c2msg = some "A\nB" ∧
    ("A" : String) ≠ "A\nB" :=
  ⟨List.mem_map.mpr ⟨"ORD-7", by decide, rfl⟩, by decide, by decide, by decide⟩

/-- Witness for the amended C2: instantiated on the batch `w1rows`, whose
last (and only) error record is `w1err`. -/
theorem incident_failure_detail_last_error_witness :
    ((∀ a b, w1err.message.toList ≠ a ++ "detail=".toList ++ b) →
      (buildIncident "ORD-1" (groupFor w1rows "ORD-1")).failure_detail = some w1err.message) ∧
    (∀ a b, w1err.message.toList = a ++ "detail=".toList ++ b →
      (∀ a' b', w1err.message.toList = a' ++ "detail=".toList ++ b' → a.length ≤ a'.length) →
      (buildIncident "ORD-1" (groupFor w1rows "ORD-1")).failure_detail
        = some (pyStrip (List.asString (b.takeWhile (fun c => c != '\n'))))) :=
  incident_failure_detail_last_error w1rows _ (List.mem_map.mpr ⟨"ORD-1", by decide, rfl⟩)
    [w1ok] [] w1err (by decide) (by decide) (by simp)

/-! ### Claim C8: root-cause classification -/

theorem isPrefixOf_eq_true_iff (p l : List Char) :
    p.isPrefixOf l = true ↔ ∃ r, l = p ++ r := by
  induction p generalizing l with
  | nil => simp [List.isPrefixOf]
  | cons a as ih =>
    cases l with
    | nil => simp [List.isPrefixOf]
    | cons b bs =>
      simp only [List.isPrefixOf, Bool.and_eq_true, beq_iff_eq, ih, List.cons_append,
        List.cons.injEq]
      constructor
      · rintro ⟨rfl, r, rfl⟩
        exact ⟨r, rfl, rfl⟩
      · rintro ⟨r, rfl, rfl⟩
        exact ⟨rfl, r, rfl⟩

theorem occurrence_exists_iff (pat l : List Char) :
    (∃ a b, l = a ++ pat ++ b) ↔
      ∃ i ∈ List.range (l.length + 1), pat.isPrefixOf (l.drop i) = true := by
  constructor
  · rintro ⟨a, b, rfl⟩
    refine ⟨a.length, List.mem_range.mpr ?_, ?_⟩
    · have hle : a.length ≤ ((a ++ pat) ++ b).length := by
        rw [List.length_append, List.length_append]
        omega
      omega
    · rw [isPrefixOf_eq_true_iff]
      refine ⟨b, ?_⟩
      rw [List.append_assoc, List.drop_left]
  · rintro ⟨i, _, hp⟩
    obtain ⟨r, hr⟩ := (isPrefixOf_eq_true_iff pat (l.drop i)).mp hp
    refine ⟨l.take i, r, ?_⟩
    rw [List.append_assoc, ← hr, List.take_append_drop]

theorem containsStr_eq_specContains (pat s : String) (hp : pat.toList ≠ []) :
    containsStr pat s = specContains pat s := by
  by_cases h : ∃ a b, s.toList = a ++ pat.toList ++ b
  · have h1 : containsStr pat s = true := by
      rw [containsStr]
      cases hf : findSub pat.toList s.toList with
      | none =>
        obtain ⟨a, b, hab⟩ := h
        exact absurd hab (findSub_none hp hf a b)
      | some r => rfl
    have h2 : specContains pat s = true := by
      rw [specContains, List.any_eq_true]
      obtain ⟨i, hi, hip⟩ := (occurrence_exists_iff pat.toList s.toList).mp h
      exact ⟨i, hi, hip⟩
    rw [h1, h2]
  · have h1 : containsStr pat s = false := by
      rw [containsStr]
      cases hf : findSub pat.toList s.toList with
      | none => rfl
      | some r =>
        obtain ⟨a, ha, _⟩ := findSub_some hf
        exact absurd ⟨a, r, ha⟩ h
    have h2 : specContains pat s = false := by
      rw [specContains]
      rw [← Bool.not_eq_true, List.any_eq_true]
      intro hc
      obtain ⟨i, hi, hip⟩ := hc
      exact h ((occurrence_exists_iff pat.toList s.toList).mpr ⟨i, hi, hip⟩)
    rw [h1, h2]

/-- Claim C8 (amended): root-cause classification equals the spec's pure
phrase-containment function amended so that an EMPTY failure detail — not
only a null one — maps to the unknown-cause category (Python's
`if not failure_detail` is a truthiness test). -/
theorem classify_root_cause_eq_amended (fd : Option String) :
    classify_root_cause fd = classify_root_cause_amended fd := by
  cases fd with
  | none => rfl
  | some s =>
    by_cases hs : s = ""
    · simp [classify_root_cause, classify_root_cause_amended, hs]
    · simp only [classify_root_cause, classify_root_cause_amended, if_neg hs]
      rw [containsStr_eq_specContains _ _ (by decide),
        containsStr_eq_specContains _ _ (by decide),
        containsStr_eq_specContains _ _ (by decide),
        containsStr_eq_specContains _ _ (by decide)]

/-- Counterexample to claim C8 as stated: the empty failure detail is
non-null text matching no phrase, so the claim sends it to the unclassified
category, but the code's truthiness test sends it to the unknown-cause
category. -/
theorem classify_empty_detail_counterexample :
    classify_root_cause (some "") = "Unknown cause" ∧
    classify_root_cause_spec (some "") = "Unknown / unclassified failure" ∧
    classify_root_cause (some "") ≠ classify_root_cause_spec (some "") :=
  ⟨by decide, by decide, by decide⟩

/-! ### Claim C9: KPI aggregation -/

theorem countDetail_eq_zero {tbl : List IncidentRow} {w : String}
    (h : ∀ r ∈ tbl, r.failure_detail ≠ some w) : countDetail tbl w = 0 := by
  rw [countDetail, List.length_eq_zero, List.filter_eq_nil_iff]
  intro r hr
  simpa using h r hr

theorem foldl_top_spec (tbl : List IncidentRow) (vs : List String) :
    ∀ v : String,
      (vs.foldl (fun best w => if countDetail tbl best < countDetail tbl w then w else best) v = v ∨
        vs.foldl (fun best w => if countDetail tbl best < countDetail tbl w then w else best) v ∈ vs) ∧
      countDetail tbl v ≤
        countDetail tbl
          (vs.foldl (fun best w => if countDetail tbl best < countDetail tbl w then w else best) v) ∧
      ∀ w ∈ vs, countDetail tbl w ≤
        countDetail tbl
          (vs.foldl (fun best w => if countDetail tbl best < countDetail tbl w then w else best) v) := by
  induction vs with
  | nil => intro v; simp
  | cons x xs ih =>
    intro v
    by_cases hc : countDetail tbl v < countDetail tbl x
    · rw [List.foldl_cons, if_pos hc]
      obtain ⟨h1, h2, h3⟩ := ih x
      refine ⟨?_, le_trans (le_of_lt hc) h2, ?_⟩
      · cases h1 with
        | inl h => exact Or.inr (by rw [h]; exact List.mem_cons_self x xs)
        | inr h => exact Or.inr (List.mem_cons_of_mem x h)
      · intro w hw
        cases List.mem_cons.mp hw with
        | inl h => exact h ▸ h2
        | inr h => exact h3 w h
    · rw [List.foldl_cons, if_neg hc]
      obtain ⟨h1, h2, h3⟩ := ih v
      refine ⟨?_, h2, ?_⟩
      · cases h1 with
        | inl h => exact Or.inl h
        | inr h => exact Or.inr (List.mem_cons_of_mem x h)
      · intro w hw
        cases List.mem_cons.mp hw with
        | inl h => exact h ▸ le_trans (not_lt.mp hc) h2
        | inr h => exact h3 w h

/-- Claim C9: the KPI record counts incidents and failed incidents, its
failure rate is failed/total when the total is positive and exactly zero
when the table is empty, and its top failure detail is a non-null detail
value of maximal occurrence count, absent exactly when no persisted row has
a non-null detail. -/
theorem kpis_spec (tbl : List IncidentRow) :
    (kpis tbl).total_incidents = tbl.length ∧
    (kpis tbl).failed_incidents = (tbl.filter (fun r => r.status == "FAILED")).length ∧
    (0 < (kpis tbl).total_incidents →
      (kpis tbl).failure_rate
        = ((kpis tbl).failed_incidents : ℚ) / ((kpis tbl).total_incidents : ℚ)) ∧
    ((kpis tbl).total_incidents = 0 → (kpis tbl).failure_rate = 0) ∧
    ((kpis tbl).top_failure_detail = none ↔ ∀ r ∈ tbl, r.failure_detail = none) ∧
    (∀ v, (kpis tbl).top_failure_detail = some v →
      (∃ r ∈ tbl, r.failure_detail = some v) ∧
      ∀ w, countDetail tbl w ≤ countDetail tbl v) := by
  refine ⟨rfl, rfl, ?_, ?_, ?_, ?_⟩
  · intro hpos
    show (if tbl.length = 0 then (0 : ℚ)
      else ((tbl.filter (fun r => r.status == "FAILED")).length : ℚ) / (tbl.length : ℚ)) = _
    have hne : tbl.length ≠ 0 := Nat.pos_iff_ne_zero.mp hpos
    rw [if_neg hne]
    rfl
  · intro h0
    show (if tbl.length = 0 then (0 : ℚ)
      else ((tbl.filter (fun r => r.status == "FAILED")).length : ℚ) / (tbl.length : ℚ)) = 0
    have h0n : tbl.length = 0 := h0
    rw [if_pos h0n]
  · show topFailureDetail tbl = none ↔ _
    cases hd : (tbl.filterMap (fun r => r.failure_detail)).dedup with
    | nil =>
      have hfm : tbl.filterMap (fun r => r.failure_detail) = [] :=
        (List.dedup_eq_nil _).mp hd
      have hall : ∀ r ∈ tbl, r.failure_detail = none := List.filterMap_eq_nil_iff.mp hfm
      unfold topFailureDetail
      simp only [hd]
      exact ⟨fun _ => hall, fun _ => trivial⟩
    | cons v0 vs =>
      unfold topFailureDetail
      simp only [hd]
      constructor
      · intro hc
        cases hc
      · intro hall
        exfalso
        have hv0 : v0 ∈ tbl.filterMap (fun r => r.failure_detail) :=
          List.mem_dedup.mp (hd ▸ List.mem_cons_self v0 vs)
        obtain ⟨r, hr, hrd⟩ := List.mem_filterMap.mp hv0
        rw [hall r hr] at hrd
        cases hrd
  · intro v hv
    have hv' : topFailureDetail tbl = some v := hv
    cases hd : (tbl.filterMap (fun r => r.failure_detail)).dedup with
    | nil =>
      unfold topFailureDetail at hv'
      simp only [hd] at hv'
      exact absurd hv' (by simp)
    | cons v0 vs =>
      unfold topFailureDetail at hv'
      simp only [hd, Option.some.injEq] at hv'
      obtain ⟨h1, h2, h3⟩ := foldl_top_spec tbl vs v0
      rw [hv'] at h1 h2 h3
      have hvmem : v ∈ v0 :: vs := by
        cases h1 with
        | inl h => exact h ▸ List.mem_cons_self v0 vs
        | inr h => exact List.mem_cons_of_mem v0 h
      have hvfm : v ∈ tbl.filterMap (fun r => r.failure_detail) :=
        List.mem_dedup.mp (hd ▸ hvmem)
      obtain ⟨r, hr, hrd⟩ := List.mem_filterMap.mp hvfm
      refine ⟨⟨r, hr, hrd⟩, ?_⟩
      intro w
      by_cases hw : w ∈ v0 :: vs
      · cases List.mem_cons.mp hw with
        | inl h => exact h ▸ h2
        | inr h => exact h3 w h
      · have hz : countDetail tbl w = 0 := by
          refine countDetail_eq_zero ?_
          intro r0 hr0 hc0
          exact hw (hd ▸ List.mem_dedup.mpr (List.mem_filterMap.mpr ⟨r0, hr0, hc0⟩))
        rw [hz]
        exact Nat.zero_le _

/-- Witness for C9: on the table `w9tbl` (two failed rows sharing one
detail, one successful detail-less row) the rate is failed/total and the
shared detail is of maximal count. -/
theorem kpis_spec_witness :
    (kpis w9tbl).failure_rate
      = ((kpis w9tbl).failed_incidents : ℚ) / ((kpis w9tbl).total_incidents : ℚ) ∧
    (∃ r ∈ w9tbl, r.failure_detail = some "Insufficient stock") ∧
    ∀ w, countDetail w9tbl w ≤ countDetail w9tbl "Insufficient stock" :=
  ⟨(kpis_spec w9tbl).2.2.1 (by decide),
    ((kpis_spec w9tbl).2.2.2.2.2 "Insufficient stock" (by decide)).1,
    ((kpis_spec w9tbl).2.2.2.2.2 "Insufficient stock" (by decide)).2⟩
